import Mathlib

/-!
# Verification of `retry.Retry` (src/retry.go)

A shallow embedding of the Go package `retry`.

Modelling conventions.

* Go functions may have side effects, so every callable threads an explicit
  world state `σ`: a `Func` maps a state to its returned `error` and the next
  state, an `If` predicate maps an error and a state to its answer and the next
  state.  The operation and the predicates share the one world, as Go closures
  may share variables.
* A Go `error` is `none` for `nil` and `some e` for a non-nil error `e : ε`.
* A Go function value may be `nil`; a nilable function is an `Option`.
* Go `int` values are modelled by `Int`.  `Retry` only compares and copies
  them, and the loop counter never exceeds `maxTries`, so no overflow occurs.
* `Retry` returns `Except.error msg` for `panic(msg)`, and otherwise a `Run`:
  the returned error, the final world state, and the (ghost) trace of the
  invocations of `f` and of the predicate in the order they were made.
-/

namespace retry

/-- Go `error`: `none` is `nil`, `some e` a non-nil error value. -/
abbrev error (ε : Type) := Option ε

/-- Go `type Func func() error` (a non-nil value of it). -/
abbrev Func (σ ε : Type) := σ → error ε × σ

/-- Go `type If func(error) bool` (a non-nil value of it). -/
abbrev If (σ ε : Type) := error ε → σ → Bool × σ

/-- Go `type Option interface { option() }` (named `Opt` because `Option` is
taken): a value of dynamic type `MaxTries` (Go `type MaxTries int`), a value
of dynamic type `If` (possibly the nil function), or the nil interface value. -/
inductive Opt (σ ε : Type) where
  | MaxTries (v : Int)
  | If (v : Option (retry.If σ ε))
  | nil

/-- The two local variables `maxTries` and `implies` of `Retry`. -/
structure Policy (σ ε : Type) where
  maxTries : Int
  implies : If σ ε

/-- Initial values: `maxTries := 3`, `implies := func(error) bool { return true }`
(lines 35-36). -/
def defaultPolicy (σ ε : Type) : Policy σ ε :=
  { maxTries := 3, implies := fun _ s => (true, s) }

/-- The body of the `for _, opt := range opts` loop: the type switch
(lines 39-50). -/
def applyOption {σ ε : Type} (pol : Policy σ ε) : Opt σ ε → Policy σ ε
  | Opt.MaxTries v =>
    if v > 1 then { pol with maxTries := v }
    else if v ≥ 0 then { pol with maxTries := 1 }
    else pol
  | Opt.If v =>
    match v with
    | some p => { pol with implies := p }
    | none => pol
  | Opt.nil => pol

/-- The options loop (lines 35-51), run over the whole list from the defaults. -/
def resolveOptions {σ ε : Type} (opts : List (Opt σ ε)) : Policy σ ε :=
  opts.foldl applyOption (defaultPolicy σ ε)

/-- One observable step of an execution of `Retry`. -/
inductive Event (ε : Type) where
  /-- The operation `f()` was invoked and returned `result`. -/
  | call (result : error ε)
  /-- The predicate `implies(arg)` was invoked and returned `answer`. -/
  | cond (arg : error ε) (answer : Bool)
  deriving DecidableEq

/-- What a returning execution of `Retry` leaves behind. -/
structure Run (σ ε : Type) where
  err : error ε
  state : σ
  trace : List (Event ε)

/-- The attempt loop `for try := 0; try < maxTries; try++ { ... }` (lines
55-59), by recursion on the number `maxTries - try` of iterations left; `err`
is the variable `err` on entry. -/
def attempts {σ ε : Type} (f : Func σ ε) (implies : If σ ε) :
    Nat → error ε → σ → Run σ ε
  | 0, err, s => { err := err, state := s, trace := [] }
  | n + 1, _, s =>
    match f s with
    | (none, s1) => { err := none, state := s1, trace := [Event.call none] }
    | (some e, s1) =>
      match implies (some e) s1 with
      | (false, s2) =>
        { err := some e, state := s2,
          trace := [Event.call (some e), Event.cond (some e) false] }
      | (true, s2) =>
        let r := attempts f implies n (some e) s2
        { r with trace := Event.call (some e) :: Event.cond (some e) true :: r.trace }

/-- Go `func Retry(f Func, opts ...Option) error`.  The loop starts at
`try = 0` with `err` nil, so `maxTries - try` iterations are left, none when
`maxTries` is not positive. -/
def Retry {σ ε : Type} (f : Option (Func σ ε)) (opts : List (Opt σ ε)) (s : σ) :
    Except String (Run σ ε) :=
  match f with
  | none => Except.error "f is nil"
  | some f =>
    let pol := resolveOptions opts
    Except.ok (attempts f pol.implies pol.maxTries.toNat none s)

/-! ## Observations on traces and on operations -/

/-- The values returned by the invocations of `f`, in order. -/
def calls {ε : Type} : List (Event ε) → List (error ε)
  | [] => []
  | Event.call r :: t => r :: calls t
  | Event.cond _ _ :: t => calls t

/-- The arguments and answers of the invocations of the predicate, in order. -/
def conds {ε : Type} : List (Event ε) → List (error ε × Bool)
  | [] => []
  | Event.call _ :: t => conds t
  | Event.cond a b :: t => (a, b) :: conds t

/-- The world after one failed attempt from `s` followed by the evaluation of
the predicate `p` on the error. -/
def afterRound {σ ε : Type} (f : Func σ ε) (p : If σ ε) (s : σ) : σ :=
  (p (f s).1 (f s).2).2

/-- The world in which attempt number `j + 1` starts, when the `j` attempts
before it each failed and had the predicate evaluated. -/
def stateAt {σ ε : Type} (f : Func σ ε) (p : If σ ε) (s : σ) : Nat → σ
  | 0 => s
  | j + 1 => stateAt f p (afterRound f p s) j

/-- The attempt started in world `s` fails. -/
def failsAt {σ ε : Type} (f : Func σ ε) (s : σ) : Bool :=
  (f s).1.isSome

/-- The answer of predicate `p` on the result of the attempt started in `s`. -/
def answerAt {σ ε : Type} (f : Func σ ε) (p : If σ ε) (s : σ) : Bool :=
  (p (f s).1 (f s).2).1

/-- The trace of `j` rounds from `s`, each an attempt whose result the
predicate `p` answered with true. -/
def retryTrace {σ ε : Type} (f : Func σ ε) (p : If σ ε) (s : σ) : Nat → List (Event ε)
  | 0 => []
  | j + 1 => Event.call (f s).1 :: Event.cond (f s).1 true :: retryTrace f p (afterRound f p s) j

/-- The value of the variable `err` after `j` rounds from `s`: its entry value
`e0` when `j = 0`, and the result of attempt number `j` otherwise. -/
def errAfter {σ ε : Type} (f : Func σ ε) (p : If σ ε) (s : σ) (e0 : error ε) : Nat → error ε
  | 0 => e0
  | j + 1 => (f (stateAt f p s j)).1

/-- The budget as the specification words it: `max n 1` for the last
non-negative `MaxTries(n)` of the list, and 3 when there is none. -/
def lastWriteBudget {σ ε : Type} (opts : List (Opt σ ε)) : Int :=
  match opts.reverse.findSome? (fun o =>
      match o with
      | Opt.MaxTries v => if 0 ≤ v then some v else none
      | _ => none) with
  | some n => max n 1
  | none => 3

/-! ## Concrete operations and predicates

The world is a counter of the invocations of the operation made so far, and
the error of invocation number `i + 1` is `i`. -/

/-- An operation that always fails. -/
def alwaysFail : Func Nat Nat := fun c => (some c, c + 1)

/-- An operation that fails `k` times and succeeds from then on. -/
def failTimes (k : Nat) : Func Nat Nat := fun c => (if c < k then some c else none, c + 1)

/-- A predicate that rejects exactly the error `k`. -/
def rejectErr (k : Nat) : If Nat Nat := fun e c => (decide (e ≠ some k), c)

/-! ## Lemmas on option resolution -/

theorem applyOption_maxTries_pos {σ ε : Type} (pol : Policy σ ε) (o : Opt σ ε)
    (h : 1 ≤ pol.maxTries) : 1 ≤ (applyOption pol o).maxTries := by
  cases o with
  | MaxTries v =>
    simp only [applyOption]
    split_ifs with h1 h2
    · show 1 ≤ v
      omega
    · show (1 : Int) ≤ 1
      omega
    · exact h
  | If v => cases v <;> simpa [applyOption] using h
  | nil => simpa [applyOption] using h

theorem foldl_applyOption_maxTries_pos {σ ε : Type} (opts : List (Opt σ ε)) :
    ∀ pol : Policy σ ε, 1 ≤ pol.maxTries → 1 ≤ (opts.foldl applyOption pol).maxTries := by
  induction opts with
  | nil => intro pol h; simpa using h
  | cons o t ih =>
    intro pol h
    simpa using ih _ (applyOption_maxTries_pos pol o h)

theorem resolveOptions_maxTries_pos {σ ε : Type} (opts : List (Opt σ ε)) :
    1 ≤ (resolveOptions opts).maxTries :=
  foldl_applyOption_maxTries_pos opts _ (by simp [defaultPolicy])

theorem resolveOptions_append_singleton {σ ε : Type} (opts : List (Opt σ ε)) (o : Opt σ ε) :
    resolveOptions (opts ++ [o]) = applyOption (resolveOptions opts) o := by
  simp [resolveOptions, List.foldl_append]

theorem foldl_applyOption_If_maxTries {σ ε : Type} (qs : List (Option (If σ ε))) :
    ∀ pol : Policy σ ε,
      ((qs.map Opt.If).foldl applyOption pol).maxTries = pol.maxTries := by
  induction qs with
  | nil => intro pol; rfl
  | cons q t ih =>
    intro pol
    simp only [List.map_cons, List.foldl_cons]
    rw [ih]
    cases q <;> rfl

theorem applyOption_MaxTries_neg {σ ε : Type} (pol : Policy σ ε) (n : Int) (hn : n < 0) :
    applyOption pol (Opt.MaxTries n) = pol := by
  have h1 : ¬ n > 1 := by omega
  have h2 : ¬ n ≥ 0 := by omega
  simp [applyOption, h1, h2]

theorem applyOption_MaxTries_nonneg {σ ε : Type} (pol : Policy σ ε) (n : Int) (hn : 0 ≤ n) :
    (applyOption pol (Opt.MaxTries n)).maxTries = max n 1 := by
  simp only [applyOption]
  split_ifs with h1
  · show n = max n 1
    omega
  · show (1 : Int) = max n 1
    omega

theorem resolveOptions_maxTries_eq_lastWriteBudget {σ ε : Type} (opts : List (Opt σ ε)) :
    (resolveOptions opts).maxTries = lastWriteBudget opts := by
  induction opts using List.reverseRecOn with
  | nil => rfl
  | append_singleton l o ih =>
    rw [resolveOptions_append_singleton]
    cases o with
    | MaxTries v =>
      by_cases hv : 0 ≤ v
      · rw [applyOption_MaxTries_nonneg _ v hv]
        simp [lastWriteBudget, List.findSome?, hv]
      · rw [applyOption_MaxTries_neg _ v (by omega), ih]
        simp [lastWriteBudget, List.findSome?, hv]
    | If q =>
      have : (applyOption (resolveOptions l) (Opt.If q)).maxTries = (resolveOptions l).maxTries := by
        cases q <;> rfl
      rw [this, ih]
      simp [lastWriteBudget, List.findSome?]
    | nil =>
      show (resolveOptions l).maxTries = _
      rw [ih]
      simp [lastWriteBudget, List.findSome?]

theorem answerAt_default {σ ε : Type} (f : Func σ ε) (t : σ) :
    answerAt f (defaultPolicy σ ε).implies t = true := rfl

/-! ## Lemmas on the attempt loop -/

theorem attempts_zero {σ ε : Type} (f : Func σ ε) (p : If σ ε) (e0 : error ε) (s : σ) :
    attempts f p 0 e0 s = { err := e0, state := s, trace := [] } := rfl

theorem attempts_succ_nil {σ ε : Type} (f : Func σ ε) (p : If σ ε) (n : Nat)
    (e0 : error ε) (s s1 : σ) (h : f s = (none, s1)) :
    attempts f p (n + 1) e0 s = { err := none, state := s1, trace := [Event.call none] } := by
  simp [attempts, h]

theorem attempts_succ_reject {σ ε : Type} (f : Func σ ε) (p : If σ ε) (n : Nat)
    (e0 : error ε) (s s1 s2 : σ) (e : ε) (h : f s = (some e, s1))
    (hp : p (some e) s1 = (false, s2)) :
    attempts f p (n + 1) e0 s =
      { err := some e, state := s2,
        trace := [Event.call (some e), Event.cond (some e) false] } := by
  simp [attempts, h, hp]

theorem attempts_succ_retry {σ ε : Type} (f : Func σ ε) (p : If σ ε) (n : Nat)
    (e0 : error ε) (s s1 s2 : σ) (e : ε) (h : f s = (some e, s1))
    (hp : p (some e) s1 = (true, s2)) :
    attempts f p (n + 1) e0 s =
      { attempts f p n (some e) s2 with
        trace := Event.call (some e) :: Event.cond (some e) true ::
          (attempts f p n (some e) s2).trace } := by
  simp [attempts, h, hp]

/-- The loop returns the result of its last invocation of `f`, or the entry
value of `err` when it made none. -/
theorem attempts_err_eq_last {σ ε : Type} (f : Func σ ε) (p : If σ ε) :
    ∀ (n : Nat) (e0 : error ε) (s : σ),
      (attempts f p n e0 s).err = ((calls (attempts f p n e0 s).trace).getLast?).getD e0 := by
  intro n
  induction n with
  | zero => intro e0 s; simp [attempts, calls]
  | succ n ih =>
    intro e0 s
    rcases h : f s with ⟨_ | e, s1⟩
    · rw [attempts_succ_nil f p n e0 s s1 h]; simp [calls]
    · rcases hp : p (some e) s1 with ⟨_ | _, s2⟩
      · rw [attempts_succ_reject f p n e0 s s1 s2 e h hp]; simp [calls]
      · rw [attempts_succ_retry f p n e0 s s1 s2 e h hp]
        simp only [calls]
        rw [ih (some e) s2]
        cases hc : calls (attempts f p n (some e) s2).trace with
        | nil => simp
        | cons a t =>
          obtain ⟨x, hx⟩ : ∃ x, (a :: t).getLast? = some x :=
            ⟨(a :: t).getLast (by simp), List.getLast?_eq_getLast _ (by simp)⟩
          simp [hx]

theorem attempts_calls_ne_nil {σ ε : Type} (f : Func σ ε) (p : If σ ε)
    (n : Nat) (e0 : error ε) (s : σ) :
    calls (attempts f p (n + 1) e0 s).trace ≠ [] := by
  rcases h : f s with ⟨_ | e, s1⟩
  · rw [attempts_succ_nil f p n e0 s s1 h]; simp [calls]
  · rcases hp : p (some e) s1 with ⟨_ | _, s2⟩
    · rw [attempts_succ_reject f p n e0 s s1 s2 e h hp]; simp [calls]
    · rw [attempts_succ_retry f p n e0 s s1 s2 e h hp]; simp [calls]

theorem attempts_calls_length_le {σ ε : Type} (f : Func σ ε) (p : If σ ε) :
    ∀ (n : Nat) (e0 : error ε) (s : σ),
      (calls (attempts f p n e0 s).trace).length ≤ n := by
  intro n
  induction n with
  | zero => intro e0 s; simp [attempts, calls]
  | succ n ih =>
    intro e0 s
    rcases h : f s with ⟨_ | e, s1⟩
    · rw [attempts_succ_nil f p n e0 s s1 h]; simp [calls]
    · rcases hp : p (some e) s1 with ⟨_ | _, s2⟩
      · rw [attempts_succ_reject f p n e0 s s1 s2 e h hp]; simp [calls]
      · rw [attempts_succ_retry f p n e0 s s1 s2 e h hp]
        simpa [calls] using ih (some e) s2

theorem attempts_one_calls_length {σ ε : Type} (f : Func σ ε) (p : If σ ε)
    (e0 : error ε) (s : σ) : (calls (attempts f p 1 e0 s).trace).length = 1 := by
  have h1 := attempts_calls_length_le f p 1 e0 s
  have h2 := attempts_calls_ne_nil f p 0 e0 s
  have h3 : (calls (attempts f p 1 e0 s).trace).length ≠ 0 := by
    intro h0
    exact h2 (List.length_eq_zero.mp h0)
  omega

/-- Unrolling `j` rounds in which the attempt fails and the predicate answers
true. -/
theorem attempts_after_retries {σ ε : Type} (f : Func σ ε) (p : If σ ε) (n : Nat) :
    ∀ (j : Nat) (e0 : error ε) (s : σ),
      (∀ i, i < j → failsAt f (stateAt f p s i) = true ∧
        answerAt f p (stateAt f p s i) = true) →
      attempts f p (n + j) e0 s =
        { attempts f p n (errAfter f p s e0 j) (stateAt f p s j) with
          trace := retryTrace f p s j ++
            (attempts f p n (errAfter f p s e0 j) (stateAt f p s j)).trace } := by
  intro j
  induction j with
  | zero => intro e0 s _; simp [errAfter, stateAt, retryTrace]
  | succ j ih =>
    intro e0 s hyp
    obtain ⟨hf, ha⟩ := hyp 0 (Nat.succ_pos j)
    simp only [stateAt, failsAt, answerAt] at hf ha
    rcases h : f s with ⟨_ | e, s1⟩
    · simp [h] at hf
    · rcases hp : p (some e) s1 with ⟨_ | _, s2⟩
      · simp [h, hp] at ha
      · have hs2 : afterRound f p s = s2 := by simp [afterRound, h, hp]
        have hstep : ∀ i, i < j → failsAt f (stateAt f p s2 i) = true ∧
            answerAt f p (stateAt f p s2 i) = true := by
          intro i hi
          have := hyp (i + 1) (Nat.succ_lt_succ hi)
          simpa [stateAt, hs2] using this
        have herr : errAfter f p s e0 (j + 1) = errAfter f p s2 (some e) j := by
          cases j with
          | zero => simp [errAfter, stateAt, h]
          | succ j => simp [errAfter, stateAt, hs2]
        rw [show n + (j + 1) = (n + j) + 1 from rfl,
          attempts_succ_retry f p (n + j) e0 s s1 s2 e h hp, ih (some e) s2 hstep, herr]
        simp [stateAt, retryTrace, hs2, h]

theorem calls_append {ε : Type} (a b : List (Event ε)) :
    calls (a ++ b) = calls a ++ calls b := by
  induction a with
  | nil => simp [calls]
  | cons x t ih => cases x <;> simp [calls, ih]

theorem conds_append {ε : Type} (a b : List (Event ε)) :
    conds (a ++ b) = conds a ++ conds b := by
  induction a with
  | nil => simp [conds]
  | cons x t ih => cases x <;> simp [conds, ih]

theorem calls_retryTrace_length {σ ε : Type} (f : Func σ ε) (p : If σ ε) :
    ∀ (j : Nat) (s : σ), (calls (retryTrace f p s j)).length = j := by
  intro j
  induction j with
  | zero => intro s; simp [retryTrace, calls]
  | succ j ih => intro s; simp [retryTrace, calls, ih]

theorem conds_retryTrace_length {σ ε : Type} (f : Func σ ε) (p : If σ ε) :
    ∀ (j : Nat) (s : σ), (conds (retryTrace f p s j)).length = j := by
  intro j
  induction j with
  | zero => intro s; simp [retryTrace, conds]
  | succ j ih => intro s; simp [retryTrace, conds, ih]

theorem calls_retryTrace_get {σ ε : Type} (f : Func σ ε) (p : If σ ε) :
    ∀ (j : Nat) (s : σ) (i : Nat), i < j →
      (calls (retryTrace f p s j))[i]? = some (f (stateAt f p s i)).1 := by
  intro j
  induction j with
  | zero => intro s i hi; omega
  | succ j ih =>
    intro s i hi
    cases i with
    | zero => simp [retryTrace, calls, stateAt]
    | succ i =>
      have := ih (afterRound f p s) i (by omega)
      simpa [retryTrace, calls, stateAt] using this

theorem calls_retryTrace_ne_none {σ ε : Type} (f : Func σ ε) (p : If σ ε) :
    ∀ (j : Nat) (s : σ), (∀ i, i < j → failsAt f (stateAt f p s i) = true) →
      ∀ e ∈ calls (retryTrace f p s j), e ≠ none := by
  intro j
  induction j with
  | zero => intro s _ e he; simp [retryTrace, calls] at he
  | succ j ih =>
    intro s hyp e he
    simp only [retryTrace, calls, List.mem_cons] at he
    rcases he with he | he
    · have := hyp 0 (Nat.succ_pos j)
      simp only [stateAt, failsAt] at this
      intro hn
      rw [he] at hn
      simp [hn] at this
    · exact ih (afterRound f p s) (fun i hi => by
        have := hyp (i + 1) (Nat.succ_lt_succ hi)
        simpa [stateAt] using this) e he

/-- Exhaustion: when each of the `m` attempts fails and is answered with
true, `f` is invoked `m` times and the result of the last one is returned. -/
theorem attempts_exhaust {σ ε : Type} (f : Func σ ε) (p : If σ ε) (m : Nat) (e0 : error ε)
    (s : σ) (hm : 0 < m)
    (hyp : ∀ i, i < m → failsAt f (stateAt f p s i) = true ∧
      answerAt f p (stateAt f p s i) = true) :
    (calls (attempts f p m e0 s).trace).length = m ∧
      (calls (attempts f p m e0 s).trace)[m - 1]? = some (attempts f p m e0 s).err ∧
      (attempts f p m e0 s).err ≠ none := by
  have h := attempts_after_retries f p 0 m e0 s hyp
  rw [Nat.zero_add] at h
  rw [h]
  simp only [attempts_zero, List.append_nil]
  obtain ⟨j, rfl⟩ : ∃ j, m = j + 1 := ⟨m - 1, by omega⟩
  refine ⟨calls_retryTrace_length f p (j + 1) s, ?_, ?_⟩
  · simpa [errAfter] using calls_retryTrace_get f p (j + 1) s j (by omega)
  · have := (hyp j (by omega)).1
    simp only [failsAt] at this
    intro hn
    simp only [errAfter] at hn
    simp [hn] at this

/-! ## The claims -/

/-- C1: for every non-nil operation `f` and every options list, `Retry`
returns, and the value it returns is the value returned by the last
invocation of `f` it made (nil after a success, that invocation's error
otherwise). -/
theorem C1_returns_last_result {σ ε : Type} (f : Func σ ε) (opts : List (Opt σ ε)) (s : σ) :
    ∃ r : Run σ ε, Retry (some f) opts s = Except.ok r ∧
      (calls r.trace).getLast? = some r.err := by
  refine ⟨_, rfl, ?_⟩
  have hpos := resolveOptions_maxTries_pos opts
  obtain ⟨n, hn⟩ : ∃ n, (resolveOptions opts).maxTries.toNat = n + 1 :=
    ⟨(resolveOptions opts).maxTries.toNat - 1, by omega⟩
  simp only [hn]
  have h1 := attempts_err_eq_last f (resolveOptions opts).implies (n + 1) none s
  have h2 := attempts_calls_ne_nil f (resolveOptions opts).implies n none s
  rw [h1]
  cases hc : calls (attempts f (resolveOptions opts).implies (n + 1) none s).trace with
  | nil => exact absurd hc h2
  | cons a t =>
    cases hl : (a :: t).getLast? with
    | none => simp at hl
    | some x => simp

/-- C2: for every non-nil operation `f` and every options list (hence every
predicate), `Retry` returns after invoking `f` at most `maxTries` times, the
budget resolved from the options. -/
theorem C2_at_most_maxTries_calls {σ ε : Type} (f : Func σ ε) (opts : List (Opt σ ε)) (s : σ) :
    ∃ r : Run σ ε, Retry (some f) opts s = Except.ok r ∧
      ((calls r.trace).length : Int) ≤ (resolveOptions opts).maxTries := by
  refine ⟨_, rfl, ?_⟩
  have hpos := resolveOptions_maxTries_pos opts
  have h := attempts_calls_length_le f (resolveOptions opts).implies
    (resolveOptions opts).maxTries.toNat none s
  omega

/-- C3: if the first `k - 1` invocations of `f` fail with errors the resolved
predicate accepts and invocation `k` returns nil, where `k = 1` (whatever the
budget) or `1 ≤ k ≤ maxTries`, then `Retry` returns nil, `f` was invoked
exactly `k` times and the predicate `k - 1` times (not at all when `k = 1`),
the invocation that returned nil is the last event, and no earlier invocation
returned nil. -/
theorem C3_success_short_circuit {σ ε : Type} (f : Func σ ε) (opts : List (Opt σ ε)) (s : σ)
    (k : Nat) (hk : 1 ≤ k)
    (hbudget : k = 1 ∨ (k : Int) ≤ (resolveOptions opts).maxTries)
    (hretry : ∀ i, i + 1 < k →
      failsAt f (stateAt f (resolveOptions opts).implies s i) = true ∧
      answerAt f (resolveOptions opts).implies (stateAt f (resolveOptions opts).implies s i) = true)
    (hsucc : (f (stateAt f (resolveOptions opts).implies s (k - 1))).1 = none) :
    ∃ r : Run σ ε, Retry (some f) opts s = Except.ok r ∧ r.err = none ∧
      (calls r.trace).length = k ∧ (conds r.trace).length = k - 1 ∧
      r.trace.getLast? = some (Event.call none) ∧
      ∀ e ∈ (calls r.trace).dropLast, e ≠ none := by
  refine ⟨_, rfl, ?_⟩
  have hpos := resolveOptions_maxTries_pos opts
  generalize hp : (resolveOptions opts).implies = p at hretry hsucc ⊢
  obtain ⟨n, hn⟩ : ∃ n, (resolveOptions opts).maxTries.toNat = (n + 1) + (k - 1) := by
    refine ⟨(resolveOptions opts).maxTries.toNat - k, ?_⟩
    rcases hbudget with h | h <;> omega
  have hyp : ∀ i, i < k - 1 → failsAt f (stateAt f p s i) = true ∧
      answerAt f p (stateAt f p s i) = true := fun i hi => hretry i (by omega)
  rw [hn, attempts_after_retries f p (n + 1) (k - 1) none s hyp]
  rcases h : f (stateAt f p s (k - 1)) with ⟨r1, s1⟩
  have hr1 : r1 = none := by simpa [h] using hsucc
  subst hr1
  rw [attempts_succ_nil f p n _ _ s1 h]
  have hlen := calls_retryTrace_length f p (k - 1) s
  have hlen2 := conds_retryTrace_length f p (k - 1) s
  refine ⟨rfl, ?_, ?_, ?_, ?_⟩
  · simp only [calls_append, calls, List.length_append, hlen, List.length_singleton]
    omega
  · simp [conds_append, conds, hlen2]
  · simp
  · intro e he
    have hd : (calls (retryTrace f p s (k - 1) ++ [Event.call none])).dropLast =
        calls (retryTrace f p s (k - 1)) := by
      simp [calls_append, calls, List.dropLast_concat]
    rw [hd] at he
    exact calls_retryTrace_ne_none f p (k - 1) s (fun i hi => (hyp i hi).1) e he

/-- C3 at an operation failing once, with no options and `k = 2`. -/
theorem C3_success_short_circuit_witness :
    (1 ≤ 2) ∧ ((2 : Nat) = 1 ∨ ((2 : Nat) : Int) ≤ (resolveOptions ([] : List (Opt Nat Nat))).maxTries) ∧
    ∃ r : Run Nat Nat, Retry (some (failTimes 1)) [] 0 = Except.ok r ∧ r.err = none ∧
      (calls r.trace).length = 2 ∧ (conds r.trace).length = 2 - 1 ∧
      r.trace.getLast? = some (Event.call none) ∧
      ∀ e ∈ (calls r.trace).dropLast, e ≠ none :=
  ⟨by decide, Or.inr (by decide),
    C3_success_short_circuit (failTimes 1) [] 0 2 (by decide) (Or.inr (by decide))
      (fun i hi => by
        have h0 : i = 0 := by omega
        subst h0
        decide)
      (by decide)⟩

/-- C4: with an empty options list, an always-failing operation is invoked
exactly 3 times and `Retry` returns the (non-nil) error produced by the 3rd
invocation. -/
theorem C4_default_budget {σ ε : Type} (f : Func σ ε) (s : σ)
    (hfail : ∀ t, failsAt f t = true) :
    ∃ r : Run σ ε, Retry (some f) [] s = Except.ok r ∧
      (calls r.trace).length = 3 ∧ (calls r.trace)[2]? = some r.err ∧ r.err ≠ none := by
  refine ⟨_, rfl, ?_⟩
  have hm : (resolveOptions ([] : List (Opt σ ε))).maxTries.toNat = 0 + 3 := by
    simp [resolveOptions, defaultPolicy]
  generalize hp : (resolveOptions ([] : List (Opt σ ε))).implies = p
  have hans : ∀ t, answerAt f p t = true := by
    intro t; subst hp; simp [answerAt, resolveOptions, defaultPolicy]
  rw [hm, attempts_after_retries f p 0 3 none s (fun i _ => ⟨hfail _, hans _⟩)]
  simp only [attempts_zero, List.append_nil]
  refine ⟨calls_retryTrace_length f p 3 s, ?_, ?_⟩
  · simpa [errAfter] using calls_retryTrace_get f p 3 s 2 (by decide)
  · have := hfail (stateAt f p s 2)
    simp only [failsAt] at this
    intro hn
    simp only [errAfter] at hn
    simp [hn] at this

/-- C4 at the operation `alwaysFail`. -/
theorem C4_default_budget_witness :
    (∀ t, failsAt alwaysFail t = true) ∧
    ∃ r : Run Nat Nat, Retry (some alwaysFail) [] 0 = Except.ok r ∧
      (calls r.trace).length = 3 ∧ (calls r.trace)[2]? = some r.err ∧ r.err ≠ none :=
  ⟨fun _ => rfl, C4_default_budget alwaysFail 0 (fun _ => rfl)⟩

/-- C5: for every integer `n > 1`, `Retry(f, MaxTries(n))` with an
always-failing `f` invokes `f` exactly `n` times and returns the (non-nil)
error of invocation `n`. -/
theorem C5_explicit_budget {σ ε : Type} (f : Func σ ε) (s : σ) (n : Int) (hn : 1 < n)
    (hfail : ∀ t, failsAt f t = true) :
    ∃ r : Run σ ε, Retry (some f) [Opt.MaxTries n] s = Except.ok r ∧
      ((calls r.trace).length : Int) = n ∧
      (calls r.trace)[n.toNat - 1]? = some r.err ∧ r.err ≠ none := by
  refine ⟨_, rfl, ?_⟩
  have hpol : resolveOptions ([Opt.MaxTries n] : List (Opt σ ε)) =
      { defaultPolicy σ ε with maxTries := n } := by
    simp [resolveOptions, applyOption, hn]
  rw [hpol]
  have h := attempts_exhaust f (defaultPolicy σ ε).implies n.toNat none s (by omega)
    (fun i _ => ⟨hfail _, answerAt_default f _⟩)
  refine ⟨?_, h.2.1, h.2.2⟩
  show ((calls (attempts f (defaultPolicy σ ε).implies n.toNat none s).trace).length : Int) = n
  rw [h.1]
  omega

/-- C5 at `MaxTries(5)`: exactly 5 invocations. -/
theorem C5_explicit_budget_witness :
    ((1 : Int) < 5) ∧ (∀ t, failsAt alwaysFail t = true) ∧
    ∃ r : Run Nat Nat, Retry (some alwaysFail) [Opt.MaxTries 5] 0 = Except.ok r ∧
      ((calls r.trace).length : Int) = 5 ∧
      (calls r.trace)[(5 : Int).toNat - 1]? = some r.err ∧ r.err ≠ none :=
  ⟨by decide, fun _ => rfl, C5_explicit_budget alwaysFail 0 5 (by decide) (fun _ => rfl)⟩

/-- C6: `MaxTries(n)` with `n = 0` or `n = 1`, alone or among any `If` options
(nil or not) before and after it, results in exactly 1 invocation of `f`, for
every `f`. -/
theorem C6_budget_collapse {σ ε : Type} (f : Func σ ε) (s : σ) (n : Int)
    (ps qs : List (Option (If σ ε))) (h0 : 0 ≤ n) (h1 : n ≤ 1) :
    ∃ r : Run σ ε,
      Retry (some f) (ps.map Opt.If ++ Opt.MaxTries n :: qs.map Opt.If) s = Except.ok r ∧
      (calls r.trace).length = 1 := by
  refine ⟨_, rfl, ?_⟩
  have hm : (resolveOptions (ps.map Opt.If ++ Opt.MaxTries n :: qs.map Opt.If)).maxTries = 1 := by
    simp only [resolveOptions, List.foldl_append, List.foldl_cons]
    rw [foldl_applyOption_If_maxTries, applyOption_MaxTries_nonneg _ n h0]
    omega
  rw [hm]
  exact attempts_one_calls_length f _ none s

/-- C6 at `MaxTries(0)` followed by an `If` option, on an always-failing
operation. -/
theorem C6_budget_collapse_witness :
    ((0 : Int) ≤ 0) ∧ ((0 : Int) ≤ 1) ∧
    ∃ r : Run Nat Nat,
      Retry (some alwaysFail)
        (([] : List (Option (If Nat Nat))).map Opt.If ++
          Opt.MaxTries 0 :: [some (rejectErr 7)].map Opt.If) 0 = Except.ok r ∧
      (calls r.trace).length = 1 :=
  ⟨by decide, by decide, C6_budget_collapse alwaysFail 0 0 [] [some (rejectErr 7)]
    (by decide) (by decide)⟩

/-- C7: for every integer `n < 0`, `Retry(f, MaxTries(n))` with an
always-failing `f` invokes `f` exactly 3 times, the default budget. -/
theorem C7_negative_budget_alone {σ ε : Type} (f : Func σ ε) (s : σ) (n : Int) (hn : n < 0)
    (hfail : ∀ t, failsAt f t = true) :
    ∃ r : Run σ ε, Retry (some f) [Opt.MaxTries n] s = Except.ok r ∧
      (calls r.trace).length = 3 := by
  refine ⟨_, rfl, ?_⟩
  have hpol : resolveOptions ([Opt.MaxTries n] : List (Opt σ ε)) = defaultPolicy σ ε := by
    simp [resolveOptions, applyOption_MaxTries_neg _ n hn]
  rw [hpol]
  exact (attempts_exhaust f (defaultPolicy σ ε).implies 3 none s (by decide)
    (fun i _ => ⟨hfail _, answerAt_default f _⟩)).1

/-- C7 at `MaxTries(-1)`. -/
theorem C7_negative_budget_alone_witness :
    ((-1 : Int) < 0) ∧ (∀ t, failsAt alwaysFail t = true) ∧
    ∃ r : Run Nat Nat, Retry (some alwaysFail) [Opt.MaxTries (-1)] 0 = Except.ok r ∧
      (calls r.trace).length = 3 :=
  ⟨by decide, fun _ => rfl,
    C7_negative_budget_alone alwaysFail 0 (-1) (by decide) (fun _ => rfl)⟩

/-- C8: for every options list `opts` and every `n < 0`, the budget resolved
from `opts` followed by `MaxTries(n)` is the budget resolved from `opts`
alone; `MaxTries(2)` followed by `MaxTries(-5)` gives the budget 2. -/
theorem C8_negative_keeps_budget {σ ε : Type} (opts : List (Opt σ ε)) (n : Int) (hn : n < 0) :
    (resolveOptions (opts ++ [Opt.MaxTries n])).maxTries = (resolveOptions opts).maxTries ∧
      (resolveOptions ([Opt.MaxTries 2, Opt.MaxTries (-5)] : List (Opt σ ε))).maxTries = 2 := by
  constructor
  · rw [resolveOptions_append_singleton, applyOption_MaxTries_neg _ n hn]
  · rfl

/-- C8 at `MaxTries(7)` followed by `MaxTries(-5)`. -/
theorem C8_negative_keeps_budget_witness :
    ((-5 : Int) < 0) ∧
    ((resolveOptions (([Opt.MaxTries 7] : List (Opt Nat Nat)) ++ [Opt.MaxTries (-5)])).maxTries =
        (resolveOptions ([Opt.MaxTries 7] : List (Opt Nat Nat))).maxTries ∧
      (resolveOptions ([Opt.MaxTries 2, Opt.MaxTries (-5)] : List (Opt Nat Nat))).maxTries = 2) :=
  ⟨by decide, C8_negative_keeps_budget [Opt.MaxTries 7] (-5) (by decide)⟩

/-- C9: for every options list `opts` and every `n ≥ 0`, the budget resolved
from `opts` followed by `MaxTries(n)` is `max n 1`; and the budget resolved
from any options list is `max n 1` for its last non-negative `MaxTries(n)`,
and 3 when it has none. -/
theorem C9_last_write_wins {σ ε : Type} (opts : List (Opt σ ε)) (n : Int) (hn : 0 ≤ n) :
    (resolveOptions (opts ++ [Opt.MaxTries n])).maxTries = max n 1 ∧
      ∀ l : List (Opt σ ε), (resolveOptions l).maxTries = lastWriteBudget l := by
  constructor
  · rw [resolveOptions_append_singleton, applyOption_MaxTries_nonneg _ n hn]
  · exact resolveOptions_maxTries_eq_lastWriteBudget

/-- C9 at `MaxTries(7)`, `MaxTries(-2)` followed by `MaxTries(0)`. -/
theorem C9_last_write_wins_witness :
    ((0 : Int) ≤ 0) ∧
    ((resolveOptions (([Opt.MaxTries 7, Opt.MaxTries (-2)] : List (Opt Nat Nat)) ++
        [Opt.MaxTries 0])).maxTries = max 0 1 ∧
      ∀ l : List (Opt Nat Nat), (resolveOptions l).maxTries = lastWriteBudget l) :=
  ⟨by decide, C9_last_write_wins [Opt.MaxTries 7, Opt.MaxTries (-2)] 0 (by decide)⟩

/-- C10: for `1 ≤ k ≤ maxTries`, if `f` always fails and the resolved
predicate answers true on the first `k - 1` errors and false on error `k`,
then `f` is invoked exactly `k` times, the predicate `k` times, and `Retry`
returns the (non-nil) error of invocation `k`. -/
theorem C10_rejection_stops_early {σ ε : Type} (f : Func σ ε) (opts : List (Opt σ ε)) (s : σ)
    (k : Nat) (hk : 1 ≤ k) (hbudget : (k : Int) ≤ (resolveOptions opts).maxTries)
    (hfail : ∀ t, failsAt f t = true)
    (haccept : ∀ i, i + 1 < k →
      answerAt f (resolveOptions opts).implies (stateAt f (resolveOptions opts).implies s i) = true)
    (hreject :
      answerAt f (resolveOptions opts).implies
        (stateAt f (resolveOptions opts).implies s (k - 1)) = false) :
    ∃ r : Run σ ε, Retry (some f) opts s = Except.ok r ∧
      (calls r.trace).length = k ∧ (calls r.trace)[k - 1]? = some r.err ∧ r.err ≠ none ∧
      (conds r.trace).length = k := by
  refine ⟨_, rfl, ?_⟩
  generalize hp : (resolveOptions opts).implies = p at haccept hreject ⊢
  obtain ⟨n, hn⟩ : ∃ n, (resolveOptions opts).maxTries.toNat = (n + 1) + (k - 1) :=
    ⟨(resolveOptions opts).maxTries.toNat - k, by omega⟩
  have hyp : ∀ i, i < k - 1 → failsAt f (stateAt f p s i) = true ∧
      answerAt f p (stateAt f p s i) = true := fun i hi => ⟨hfail _, haccept i (by omega)⟩
  rw [hn, attempts_after_retries f p (n + 1) (k - 1) none s hyp]
  have hf := hfail (stateAt f p s (k - 1))
  simp only [failsAt] at hf
  simp only [answerAt] at hreject
  rcases h : f (stateAt f p s (k - 1)) with ⟨_ | e, s1⟩
  · simp [h] at hf
  · rcases hq : p (some e) s1 with ⟨_ | _, s2⟩
    · rw [attempts_succ_reject f p n _ _ s1 s2 e h hq]
      have hlen := calls_retryTrace_length f p (k - 1) s
      have hlen2 := conds_retryTrace_length f p (k - 1) s
      refine ⟨?_, ?_, ?_, ?_⟩
      · simp only [calls_append, calls, List.length_append, hlen, List.length_singleton]
        omega
      · simp only [calls_append, calls]
        rw [List.getElem?_append_right (by omega)]
        simp [hlen]
      · simp
      · simp only [conds_append, conds, List.length_append, hlen2, List.length_singleton]
        omega
    · simp [h, hq] at hreject

/-- C10 with the default budget and `k = 2`: the predicate given by `If`
rejects the 2nd error, so `f` is invoked exactly 2 times. -/
theorem C10_rejection_stops_early_witness :
    (1 ≤ 2) ∧
    (((2 : Nat) : Int) ≤ (resolveOptions ([Opt.If (some (rejectErr 1))] : List (Opt Nat Nat))).maxTries) ∧
    (∀ t, failsAt alwaysFail t = true) ∧
    ∃ r : Run Nat Nat,
      Retry (some alwaysFail) [Opt.If (some (rejectErr 1))] 0 = Except.ok r ∧
      (calls r.trace).length = 2 ∧ (calls r.trace)[2 - 1]? = some r.err ∧ r.err ≠ none ∧
      (conds r.trace).length = 2 :=
  ⟨by decide, by decide, fun _ => rfl,
    C10_rejection_stops_early alwaysFail [Opt.If (some (rejectErr 1))] 0 2 (by decide)
      (by decide) (fun _ => rfl)
      (fun i hi => by
        have h0 : i = 0 := by omega
        subst h0
        decide)
      (by decide)⟩

/-! ## Further lemmas on option resolution -/

theorem resolveOptions_append {σ ε : Type} (pre post : List (Opt σ ε)) :
    resolveOptions (pre ++ post) = post.foldl applyOption (resolveOptions pre) := by
  simp [resolveOptions, List.foldl_append]

theorem applyOption_swap_kinds {σ ε : Type} (pol : Policy σ ε) (n : Int)
    (p : Option (If σ ε)) :
    applyOption (applyOption pol (Opt.MaxTries n)) (Opt.If p) =
      applyOption (applyOption pol (Opt.If p)) (Opt.MaxTries n) := by
  cases p with
  | none => rfl
  | some q =>
    simp only [applyOption]
    split_ifs <;> rfl

theorem foldl_applyOption_implies_of_no_If {σ ε : Type} (opts : List (Opt σ ε))
    (h : ∀ q : If σ ε, Opt.If (some q) ∉ opts) :
    ∀ pol : Policy σ ε, (opts.foldl applyOption pol).implies = pol.implies := by
  induction opts with
  | nil => intro pol; rfl
  | cons o t ih =>
    intro pol
    have ht : ∀ q : If σ ε, Opt.If (some q) ∉ t := fun q hq => h q (List.mem_cons_of_mem _ hq)
    simp only [List.foldl_cons]
    rw [ih ht]
    cases o with
    | MaxTries v =>
      simp only [applyOption]
      split_ifs <;> rfl
    | If v =>
      cases v with
      | none => rfl
      | some q => exact absurd (List.mem_cons_self _ _) (h q)
    | nil => rfl

/-! ## The claims, continued -/

/-- C11: when `If(p1)` then `If(p2)` with `p2` non-nil are supplied, the
resolved predicate is `p2`, and for every `f` the whole execution of
`Retry(f, If(p1), If(p2))` (returned value, trace of invocations, final
world) is that of `Retry(f, If(p2))`: it does not depend on `p1`, which is
never invoked. -/
theorem C11_predicate_overridden {σ ε : Type} (f : Func σ ε) (p1 : Option (If σ ε))
    (p2 : If σ ε) (s : σ) :
    (resolveOptions [Opt.If p1, Opt.If (some p2)]).implies = p2 ∧
      Retry (some f) [Opt.If p1, Opt.If (some p2)] s =
        Retry (some f) [Opt.If (some p2)] s := by
  cases p1 <;> exact ⟨rfl, rfl⟩

/-- C12: for every options list `opts`, the policy resolved from `opts`
followed by `If(nil)` is the policy resolved from `opts` alone, which has the
always-retry default predicate when `opts` has no non-nil `If`; and
`Retry(f, If(nil))` returns (no panic) exactly what `Retry(f)` returns. -/
theorem C12_nil_predicate_ignored {σ ε : Type} (f : Func σ ε) (opts : List (Opt σ ε)) (s : σ) :
    resolveOptions (opts ++ [Opt.If none]) = resolveOptions opts ∧
      ((∀ q : If σ ε, Opt.If (some q) ∉ opts) →
        (resolveOptions (opts ++ [Opt.If none])).implies = (defaultPolicy σ ε).implies) ∧
      Retry (some f) (opts ++ [Opt.If none]) s = Retry (some f) opts s ∧
      ∃ r : Run σ ε, Retry (some f) [Opt.If none] s = Except.ok r ∧
        Retry (some f) [] s = Except.ok r := by
  have h : resolveOptions (opts ++ [Opt.If none]) = resolveOptions opts := by
    rw [resolveOptions_append_singleton]; rfl
  refine ⟨h, ?_, ?_, _, rfl, rfl⟩
  · intro hno
    rw [h]
    exact foldl_applyOption_implies_of_no_If opts hno _
  · simp only [Retry, h]

/-- C13: `Retry` panics if and only if `f` is nil (operations and predicates
being total); with a nil `f` the panic `"f is nil"` is the outcome for every
options list and every world, with no attempt and no predicate call made. -/
theorem C13_panics_iff_nil {σ ε : Type} (f : Option (Func σ ε)) (opts : List (Opt σ ε)) (s : σ) :
    ((∃ msg, Retry f opts s = Except.error msg) ↔ f = none) ∧
      Retry (none : Option (Func σ ε)) opts s = Except.error "f is nil" := by
  refine ⟨?_, rfl⟩
  cases f with
  | none => exact ⟨fun _ => rfl, fun _ => ⟨_, rfl⟩⟩
  | some g =>
    constructor
    · rintro ⟨msg, h⟩
      simp [Retry] at h
    · intro h
      cases h

/-- C14: for every integer `n` and every predicate `p` (nil included),
`[MaxTries(n), If(p)]` and `[If(p), MaxTries(n)]` resolve to the same policy;
and swapping an adjacent `MaxTries` and `If` anywhere in an options list
changes neither the resolved policy nor the execution of `Retry`. -/
theorem C14_order_independence {σ ε : Type} (f : Func σ ε) (pre post : List (Opt σ ε))
    (n : Int) (p : Option (If σ ε)) (s : σ) :
    resolveOptions ([Opt.MaxTries n, Opt.If p] : List (Opt σ ε)) =
        resolveOptions [Opt.If p, Opt.MaxTries n] ∧
      resolveOptions (pre ++ Opt.MaxTries n :: Opt.If p :: post) =
        resolveOptions (pre ++ Opt.If p :: Opt.MaxTries n :: post) ∧
      Retry (some f) (pre ++ Opt.MaxTries n :: Opt.If p :: post) s =
        Retry (some f) (pre ++ Opt.If p :: Opt.MaxTries n :: post) s := by
  have h : resolveOptions (pre ++ Opt.MaxTries n :: Opt.If p :: post) =
      resolveOptions (pre ++ Opt.If p :: Opt.MaxTries n :: post) := by
    simp only [resolveOptions_append, List.foldl_cons, applyOption_swap_kinds]
  refine ⟨?_, h, ?_⟩
  · simp only [resolveOptions, List.foldl_cons, List.foldl_nil, applyOption_swap_kinds]
  · simp only [Retry, h]

/-- C15: for every options list the resolved `maxTries` is at least 1, and
for every non-nil `f` `Retry` returns after invoking `f` at least once. -/
theorem C15_budget_at_least_one {σ ε : Type} (f : Func σ ε) (opts : List (Opt σ ε)) (s : σ) :
    1 ≤ (resolveOptions opts).maxTries ∧
      ∃ r : Run σ ε, Retry (some f) opts s = Except.ok r ∧ 1 ≤ (calls r.trace).length := by
  have hpos := resolveOptions_maxTries_pos opts
  refine ⟨hpos, _, rfl, ?_⟩
  obtain ⟨n, hn⟩ : ∃ n, (resolveOptions opts).maxTries.toNat = n + 1 :=
    ⟨(resolveOptions opts).maxTries.toNat - 1, by omega⟩
  simp only [hn]
  have h2 := attempts_calls_ne_nil f (resolveOptions opts).implies n none s
  exact List.length_pos.mpr h2

/-- C20: a nil `Option` value anywhere in the options list is ignored: the
resolved policy (budget and predicate) is that of the list without it, and
`Retry` returns (no panic) exactly what it returns without it. -/
theorem C20_nil_option_ignored {σ ε : Type} (f : Func σ ε) (pre post : List (Opt σ ε)) (s : σ) :
    resolveOptions (pre ++ Opt.nil :: post) = resolveOptions (pre ++ post) ∧
      ∃ r : Run σ ε, Retry (some f) (pre ++ Opt.nil :: post) s = Except.ok r ∧
        Retry (some f) (pre ++ post) s = Except.ok r := by
  have h : resolveOptions (pre ++ Opt.nil :: post) = resolveOptions (pre ++ post) := by
    simp only [resolveOptions_append, List.foldl_cons]
    rfl
  refine ⟨h, _, rfl, ?_⟩
  simp only [Retry, h]

/-! ## Further lemmas on the attempt loop -/

/-- Every predicate call of the loop has a non-nil argument and directly
follows the call of `f` that returned it. -/
theorem attempts_cond_preceded {σ ε : Type} (f : Func σ ε) (p : If σ ε) :
    ∀ (n : Nat) (e0 : error ε) (s : σ) (i : Nat) (a : error ε) (b : Bool),
      (attempts f p n e0 s).trace[i]? = some (Event.cond a b) →
      a ≠ none ∧ 0 < i ∧ (attempts f p n e0 s).trace[i - 1]? = some (Event.call a) := by
  intro n
  induction n with
  | zero => intro e0 s i a b h; simp [attempts] at h
  | succ n ih =>
    intro e0 s i a b
    rcases h : f s with ⟨_ | e, s1⟩
    · rw [attempts_succ_nil f p n e0 s s1 h]
      intro hi
      cases i <;> simp at hi
    · rcases hp : p (some e) s1 with ⟨_ | _, s2⟩
      · rw [attempts_succ_reject f p n e0 s s1 s2 e h hp]
        intro hi
        rcases i with _ | _ | i
        · simp at hi
        · simp at hi
          obtain ⟨rfl, rfl⟩ := hi
          simp
        · simp at hi
      · rw [attempts_succ_retry f p n e0 s s1 s2 e h hp]
        intro hi
        rcases i with _ | _ | i
        · simp at hi
        · simp at hi
          obtain ⟨rfl, rfl⟩ := hi
          simp
        · simp only [List.getElem?_cons_succ] at hi
          obtain ⟨h1, h2, h3⟩ := ih (some e) s2 i a b hi
          obtain ⟨j, rfl⟩ : ∃ j, i = j + 1 := ⟨i - 1, by omega⟩
          refine ⟨h1, by omega, ?_⟩
          simpa using h3

/-- Every failed call of `f` in the loop is directly followed by a predicate
call on the error it returned. -/
theorem attempts_call_followed {σ ε : Type} (f : Func σ ε) (p : If σ ε) :
    ∀ (n : Nat) (e0 : error ε) (s : σ) (i : Nat) (e : ε),
      (attempts f p n e0 s).trace[i]? = some (Event.call (some e)) →
      ∃ b, (attempts f p n e0 s).trace[i + 1]? = some (Event.cond (some e) b) := by
  intro n
  induction n with
  | zero => intro e0 s i e h; simp [attempts] at h
  | succ n ih =>
    intro e0 s i e'
    rcases h : f s with ⟨_ | e, s1⟩
    · rw [attempts_succ_nil f p n e0 s s1 h]
      intro hi
      cases i <;> simp at hi
    · rcases hp : p (some e) s1 with ⟨_ | _, s2⟩
      · rw [attempts_succ_reject f p n e0 s s1 s2 e h hp]
        intro hi
        rcases i with _ | _ | i
        · simp at hi
          subst hi
          exact ⟨false, by simp⟩
        · simp at hi
        · simp at hi
      · rw [attempts_succ_retry f p n e0 s s1 s2 e h hp]
        intro hi
        rcases i with _ | _ | i
        · simp at hi
          subst hi
          exact ⟨true, by simp⟩
        · simp at hi
        · simp only [List.getElem?_cons_succ] at hi
          obtain ⟨b, hb⟩ := ih (some e) s2 i e' hi
          exact ⟨b, by simpa using hb⟩

/-- The arguments of the predicate calls are the non-nil results of the calls
of `f`, in order. -/
theorem attempts_conds_eq_failed_calls {σ ε : Type} (f : Func σ ε) (p : If σ ε) :
    ∀ (n : Nat) (e0 : error ε) (s : σ),
      (conds (attempts f p n e0 s).trace).map Prod.fst =
        (calls (attempts f p n e0 s).trace).filter (fun r => r.isSome) := by
  intro n
  induction n with
  | zero => intro e0 s; simp [attempts, calls, conds]
  | succ n ih =>
    intro e0 s
    rcases h : f s with ⟨_ | e, s1⟩
    · rw [attempts_succ_nil f p n e0 s s1 h]; simp [calls, conds]
    · rcases hp : p (some e) s1 with ⟨_ | _, s2⟩
      · rw [attempts_succ_reject f p n e0 s s1 s2 e h hp]; simp [calls, conds]
      · rw [attempts_succ_retry f p n e0 s s1 s2 e h hp]
        simpa [calls, conds] using ih (some e) s2

theorem retryTrace_getLast {σ ε : Type} (f : Func σ ε) (p : If σ ε) :
    ∀ (j : Nat) (s : σ),
      (retryTrace f p s (j + 1)).getLast? = some (Event.cond (f (stateAt f p s j)).1 true) := by
  intro j
  induction j with
  | zero => intro s; simp [retryTrace, stateAt]
  | succ j ih =>
    intro s
    have h := ih (afterRound f p s)
    rw [retryTrace]
    cases ht : retryTrace f p (afterRound f p s) (j + 1) with
    | nil => rw [ht] at h; simp at h
    | cons x t =>
      rw [ht] at h
      simp only [stateAt]
      rw [← h]
      simp [List.getLast?_cons_cons]

/-- Raising the number of iterations does not change a run of the loop that
ended on a success or on a rejection. -/
theorem attempts_mono {σ ε : Type} (f : Func σ ε) (p : If σ ε) :
    ∀ (n m : Nat) (e0 : error ε) (s : σ), n ≤ m →
      (((attempts f p n e0 s).err = none ∧ 0 < n) ∨
        ∃ a, (attempts f p n e0 s).trace.getLast? = some (Event.cond a false)) →
      attempts f p m e0 s = attempts f p n e0 s := by
  intro n
  induction n with
  | zero =>
    intro m e0 s _ hstop
    rcases hstop with ⟨_, h0⟩ | ⟨a, ha⟩
    · omega
    · simp [attempts] at ha
  | succ n ih =>
    intro m e0 s hnm hstop
    obtain ⟨m, rfl⟩ : ∃ m', m = m' + 1 := ⟨m - 1, by omega⟩
    rcases h : f s with ⟨_ | e, s1⟩
    · rw [attempts_succ_nil f p n e0 s s1 h, attempts_succ_nil f p m e0 s s1 h]
    · rcases hp : p (some e) s1 with ⟨_ | _, s2⟩
      · rw [attempts_succ_reject f p n e0 s s1 s2 e h hp,
          attempts_succ_reject f p m e0 s s1 s2 e h hp]
      · rw [attempts_succ_retry f p n e0 s s1 s2 e h hp] at hstop
        rw [attempts_succ_retry f p n e0 s s1 s2 e h hp,
          attempts_succ_retry f p m e0 s s1 s2 e h hp]
        have hrec : attempts f p m (some e) s2 = attempts f p n (some e) s2 := by
          apply ih m (some e) s2 (by omega)
          rcases hstop with ⟨herr, _⟩ | ⟨a, ha⟩
          · left
            refine ⟨herr, ?_⟩
            cases n with
            | zero => simp [attempts] at herr
            | succ n => omega
          · right
            cases ht : (attempts f p n (some e) s2).trace with
            | nil => rw [ht] at ha; simp at ha
            | cons x t =>
              rw [ht] at ha
              exact ⟨a, by simpa [List.getLast?_cons_cons] using ha⟩
        rw [hrec]

/-! ## The claims on the predicate calls and on the budget -/

/-- C16: for every `f` and every options list, each invocation of the
resolved predicate in the execution of `Retry` has a non-nil argument, and
the event just before it is the invocation of `f` that returned that
argument. -/
theorem C16_predicate_never_on_nil {σ ε : Type} (f : Func σ ε) (opts : List (Opt σ ε)) (s : σ) :
    ∃ r : Run σ ε, Retry (some f) opts s = Except.ok r ∧
      ∀ (i : Nat) (a : error ε) (b : Bool), r.trace[i]? = some (Event.cond a b) →
        a ≠ none ∧ 0 < i ∧ r.trace[i - 1]? = some (Event.call a) :=
  ⟨_, rfl, attempts_cond_preceded f _ _ none s⟩

/-- C17: when the resolved `maxTries` is 1 and `f` fails with error `e`, the
execution is exactly one invocation of `f` followed by one evaluation of the
predicate on `e`, and `Retry` returns `e` whatever the predicate answers. -/
theorem C17_single_attempt_still_asks {σ ε : Type} (f : Func σ ε) (opts : List (Opt σ ε))
    (s : σ) (e : ε) (hmax : (resolveOptions opts).maxTries = 1) (hfail : (f s).1 = some e) :
    ∃ r : Run σ ε, Retry (some f) opts s = Except.ok r ∧ r.err = some e ∧
      r.trace = [Event.call (some e),
        Event.cond (some e) (answerAt f (resolveOptions opts).implies s)] := by
  refine ⟨_, rfl, ?_⟩
  generalize (resolveOptions opts).implies = p
  rw [hmax]
  show (attempts f p (0 + 1) none s).err = some e ∧ (attempts f p (0 + 1) none s).trace = _
  rcases h : f s with ⟨r1, s1⟩
  have hr1 : r1 = some e := by simpa [h] using hfail
  subst hr1
  rcases hp : p (some e) s1 with ⟨_ | _, s2⟩
  · rw [attempts_succ_reject f p 0 none s s1 s2 e h hp]
    simp [answerAt, h, hp]
  · rw [attempts_succ_retry f p 0 none s s1 s2 e h hp]
    simp [answerAt, h, hp, attempts]

/-- C17 at `MaxTries(0)` with an accepting predicate and at `MaxTries(1)` with
a rejecting one, on an always-failing operation. -/
theorem C17_single_attempt_still_asks_witness :
    (∃ r : Run Nat Nat,
      Retry (some alwaysFail) [Opt.MaxTries 0, Opt.If (some (rejectErr 7))] 0 = Except.ok r ∧
      r.err = some 0 ∧ r.trace = [Event.call (some 0), Event.cond (some 0) true]) ∧
    (∃ r : Run Nat Nat,
      Retry (some alwaysFail) [Opt.MaxTries 1, Opt.If (some (rejectErr 0))] 0 = Except.ok r ∧
      r.err = some 0 ∧ r.trace = [Event.call (some 0), Event.cond (some 0) false]) :=
  ⟨C17_single_attempt_still_asks alwaysFail [Opt.MaxTries 0, Opt.If (some (rejectErr 7))] 0 0
      (by decide) (by decide),
    C17_single_attempt_still_asks alwaysFail [Opt.MaxTries 1, Opt.If (some (rejectErr 0))] 0 0
      (by decide) (by decide)⟩

/-- C18: for every `f` and every options list, the arguments of the predicate
invocations are, in order, the non-nil results of the invocations of `f` (so
there are as many of the one as of the other); every failed invocation of `f`
is directly followed by the predicate invocation on its error and every
predicate invocation directly follows an invocation of `f`; and when all
`maxTries` attempts fail and are accepted, `f` and the predicate are each
invoked `maxTries` times, the last event being the predicate invocation on the
returned error. -/
theorem C18_predicate_calls_alternate {σ ε : Type} (f : Func σ ε) (opts : List (Opt σ ε))
    (s : σ) :
    ∃ r : Run σ ε, Retry (some f) opts s = Except.ok r ∧
      (conds r.trace).map Prod.fst = (calls r.trace).filter (fun x => x.isSome) ∧
      (conds r.trace).length = (calls r.trace).countP (fun x => x.isSome) ∧
      (∀ (i : Nat) (e : ε), r.trace[i]? = some (Event.call (some e)) →
        ∃ b, r.trace[i + 1]? = some (Event.cond (some e) b)) ∧
      (∀ (i : Nat) (a : error ε) (b : Bool), r.trace[i]? = some (Event.cond a b) →
        0 < i ∧ r.trace[i - 1]? = some (Event.call a)) ∧
      ((∀ i, i < (resolveOptions opts).maxTries.toNat →
          failsAt f (stateAt f (resolveOptions opts).implies s i) = true ∧
          answerAt f (resolveOptions opts).implies
            (stateAt f (resolveOptions opts).implies s i) = true) →
        ((calls r.trace).length : Int) = (resolveOptions opts).maxTries ∧
        ((conds r.trace).length : Int) = (resolveOptions opts).maxTries ∧
        r.trace.getLast? = some (Event.cond r.err true)) := by
  refine ⟨_, rfl, ?_⟩
  have hpos := resolveOptions_maxTries_pos opts
  generalize (resolveOptions opts).implies = p
  obtain ⟨m, hm⟩ : ∃ m, (resolveOptions opts).maxTries.toNat = m + 1 :=
    ⟨(resolveOptions opts).maxTries.toNat - 1, by omega⟩
  have hmap := attempts_conds_eq_failed_calls f p (m + 1) none s
  rw [hm]
  refine ⟨hmap, ?_, attempts_call_followed f p (m + 1) none s,
    fun i a b h => (attempts_cond_preceded f p (m + 1) none s i a b h).2, ?_⟩
  · have := congrArg List.length hmap
    rw [List.length_map] at this
    rw [this, List.countP_eq_length_filter]
  · intro hyp
    have h := attempts_after_retries f p 0 (m + 1) none s hyp
    rw [Nat.zero_add] at h
    rw [h]
    simp only [attempts_zero, List.append_nil]
    refine ⟨?_, ?_, ?_⟩
    · rw [calls_retryTrace_length]; omega
    · rw [conds_retryTrace_length]; omega
    · rw [retryTrace_getLast]; rfl

/-- C18 on exhaustion of the default budget by an always-failing operation:
3 invocations of `f` and 3 of the predicate, the last event being the
predicate invocation on the returned error. -/
theorem C18_predicate_calls_alternate_witness :
    ∃ r : Run Nat Nat, Retry (some alwaysFail) [] 0 = Except.ok r ∧
      ((calls r.trace).length : Int) = 3 ∧ ((conds r.trace).length : Int) = 3 ∧
      r.trace.getLast? = some (Event.cond r.err true) := by
  obtain ⟨r, hr, _, _, _, _, hex⟩ := C18_predicate_calls_alternate alwaysFail [] 0
  exact ⟨r, hr, hex (fun _ _ => ⟨rfl, rfl⟩)⟩

/-- C19: if `Retry` under one options list returns nil, or stops on a
rejection by the predicate, then under any options list with the same
resolved predicate and a budget at least as large the execution is the same:
the same invocations of `f` and the same returned value. -/
theorem C19_budget_monotone {σ ε : Type} (f : Func σ ε) (opts1 opts2 : List (Opt σ ε))
    (s : σ) (r : Run σ ε) (hrun : Retry (some f) opts1 s = Except.ok r)
    (hpred : (resolveOptions opts2).implies = (resolveOptions opts1).implies)
    (hbudget : (resolveOptions opts1).maxTries ≤ (resolveOptions opts2).maxTries)
    (hstop : r.err = none ∨ ∃ a, r.trace.getLast? = some (Event.cond a false)) :
    Retry (some f) opts2 s = Except.ok r := by
  have hpos := resolveOptions_maxTries_pos opts1
  simp only [Retry, Except.ok.injEq] at hrun
  subst hrun
  simp only [Retry, hpred]
  congr 1
  apply attempts_mono f _ _ _ none s (by omega)
  rcases hstop with h | h
  · exact Or.inl ⟨h, by omega⟩
  · exact Or.inr h

/-- C19 at an operation failing once: budget 2 succeeds at the 2nd
invocation, and so does budget 5, with the same execution. -/
theorem C19_budget_monotone_witness :
    ∃ r : Run Nat Nat, Retry (some (failTimes 1)) [Opt.MaxTries 2] 0 = Except.ok r ∧
      r.err = none ∧ (calls r.trace).length = 2 ∧
      Retry (some (failTimes 1)) [Opt.MaxTries 5] 0 = Except.ok r :=
  ⟨_, rfl, by decide, by decide,
    C19_budget_monotone (failTimes 1) [Opt.MaxTries 2] [Opt.MaxTries 5] 0 _ rfl rfl
      (by decide) (Or.inl (by decide))⟩

end retry
